import Mathlib

/-!
Verification development for the blueprint-linter repository.

The linter is shallowly embedded: pure string transforms are Lean functions
over `String` / `List Char`; filesystem-dependent checkers become pure
functions whose inputs are explicit models of what the external collaborators
(the glob library, `fs`) would return.  Character classes follow the JS
regexes of the source, which are ASCII ranges; `toLowerCase` is modelled on
the ASCII range, which is exact for the identifier-style inputs the linter
handles.
-/

/-- ASCII `[a-z]`, the regex class used by `normalizeToSnakeCase`. -/
def isLowerAscii (c : Char) : Bool := 97 ≤ c.toNat && c.toNat ≤ 122

/-- ASCII `[A-Z]`. -/
def isUpperAscii (c : Char) : Bool := 65 ≤ c.toNat && c.toNat ≤ 90

/-- ASCII `[0-9]`. -/
def isDigitAscii (c : Char) : Bool := 48 ≤ c.toNat && c.toNat ≤ 57

/-- `String.prototype.toLowerCase`, restricted to the ASCII range. -/
def toLowerAscii (c : Char) : Char :=
  if isUpperAscii c then Char.ofNat (c.toNat + 32) else c

/-- First replacement of `normalizeToSnakeCase` in `src/utils/normalizeName.ts`:
`.replace(/([a-z0-9])([A-Z])/g, '$1_$2')`.  Because the second character of a
match is uppercase it can never start the next match, so the global replace is
exactly this adjacent-pair scan. -/
def insertLU : List Char → List Char
  | c1 :: c2 :: rest =>
    if (isLowerAscii c1 || isDigitAscii c1) && isUpperAscii c2 then
      c1 :: '_' :: insertLU (c2 :: rest)
    else
      c1 :: insertLU (c2 :: rest)
  | l => l

/-- Second replacement: `.replace(/([A-Z])([A-Z][a-z])/g, '$1_$2')`.  A match
consumes three characters none of which can participate in an overlapping
match, so the global replace is exactly this sliding-triple scan. -/
def insertAcr : List Char → List Char
  | c1 :: c2 :: c3 :: rest =>
    if isUpperAscii c1 && isUpperAscii c2 && isLowerAscii c3 then
      c1 :: '_' :: insertAcr (c2 :: c3 :: rest)
    else
      c1 :: insertAcr (c2 :: c3 :: rest)
  | l => l

/-- `normalizeToSnakeCase` from `src/utils/normalizeName.ts`: the two
underscore-inserting replaces followed by `toLowerCase`, with the empty-string
guard of the source. -/
def normalizeToSnakeCase (s : String) : String :=
  if s = "" then ""
  else String.mk ((insertAcr (insertLU s.data)).map toLowerAscii)

/-- The boundary predicate the spec describes: an underscore goes between `c1`
and `c2` when `c1` is lowercase-or-digit and `c2` uppercase, or when `c1` and
`c2` are uppercase and the character after `c2` is lowercase. -/
def snakeBoundary (c1 c2 : Char) (c3? : Option Char) : Bool :=
  ((isLowerAscii c1 || isDigitAscii c1) && isUpperAscii c2)
  || (isUpperAscii c1 && isUpperAscii c2 &&
      (match c3? with | some c3 => isLowerAscii c3 | none => false))

/-- Single pass inserting an underscore at every `snakeBoundary` of the
original string. -/
def insertBoundaries : List Char → List Char
  | c1 :: c2 :: rest =>
    if snakeBoundary c1 c2 rest.head? then
      c1 :: '_' :: insertBoundaries (c2 :: rest)
    else
      c1 :: insertBoundaries (c2 :: rest)
  | l => l

/-- Modelled from the spec wording of the algorithm: insert a separator at
both kinds of boundary, computed on the original string, then lowercase. -/
def normalizeToSnakeCaseSpec (s : String) : String :=
  String.mk ((insertBoundaries s.data).map toLowerAscii)

/-! ### Character class facts -/

lemma ofNat_lower_facts (m : Nat) (h1 : 97 ≤ m) (h2 : m ≤ 122) :
    isUpperAscii (Char.ofNat m) = false ∧ toLowerAscii (Char.ofNat m) = Char.ofNat m := by
  interval_cases m <;> exact ⟨rfl, rfl⟩

lemma isUpperAscii_toLowerAscii (c : Char) : isUpperAscii (toLowerAscii c) = false := by
  unfold toLowerAscii
  split
  · rename_i h
    simp only [isUpperAscii, Bool.and_eq_true, decide_eq_true_eq] at h
    exact (ofNat_lower_facts (c.toNat + 32) (by omega) (by omega)).1
  · rename_i h
    simpa using h

lemma toLowerAscii_eq_of_not_upper {c : Char} (h : isUpperAscii c = false) :
    toLowerAscii c = c := by
  unfold toLowerAscii
  rw [if_neg (by simp [h])]

lemma toLowerAscii_idem (c : Char) : toLowerAscii (toLowerAscii c) = toLowerAscii c :=
  toLowerAscii_eq_of_not_upper (isUpperAscii_toLowerAscii c)

lemma not_upper_of_lower {c : Char} (h : isLowerAscii c = true) : isUpperAscii c = false := by
  cases hu : isUpperAscii c with
  | false => rfl
  | true =>
    exfalso
    simp only [isLowerAscii, Bool.and_eq_true, decide_eq_true_eq] at h
    simp only [isUpperAscii, Bool.and_eq_true, decide_eq_true_eq] at hu
    omega

lemma not_upper_of_digit {c : Char} (h : isDigitAscii c = true) : isUpperAscii c = false := by
  cases hu : isUpperAscii c with
  | false => rfl
  | true =>
    exfalso
    simp only [isDigitAscii, Bool.and_eq_true, decide_eq_true_eq] at h
    simp only [isUpperAscii, Bool.and_eq_true, decide_eq_true_eq] at hu
    omega

/-! ### The two-pass replacement equals the single boundary pass -/

lemma insertLU_cons2 (c1 c2 : Char) (rest : List Char) :
    insertLU (c1 :: c2 :: rest) =
      if (isLowerAscii c1 || isDigitAscii c1) && isUpperAscii c2 then
        c1 :: '_' :: insertLU (c2 :: rest)
      else
        c1 :: insertLU (c2 :: rest) := rfl

lemma insertAcr_cons3 (c1 c2 c3 : Char) (rest : List Char) :
    insertAcr (c1 :: c2 :: c3 :: rest) =
      if isUpperAscii c1 && isUpperAscii c2 && isLowerAscii c3 then
        c1 :: '_' :: insertAcr (c2 :: c3 :: rest)
      else
        c1 :: insertAcr (c2 :: c3 :: rest) := rfl

lemma insertBoundaries_cons2 (c1 c2 : Char) (rest : List Char) :
    insertBoundaries (c1 :: c2 :: rest) =
      if snakeBoundary c1 c2 rest.head? then
        c1 :: '_' :: insertBoundaries (c2 :: rest)
      else
        c1 :: insertBoundaries (c2 :: rest) := rfl

lemma insertAcr_cons_of_not_upper (x : Char) (xs : List Char) (h : isUpperAscii x = false) :
    insertAcr (x :: xs) = x :: insertAcr xs := by
  match xs with
  | [] => rfl
  | [y] => rfl
  | y :: z :: zs => rw [insertAcr_cons3]; simp [h]

lemma insertAcr_underscore (x : Char) (xs : List Char) :
    insertAcr (x :: '_' :: xs) = x :: '_' :: insertAcr xs := by
  have h1 : insertAcr (x :: '_' :: xs) = x :: insertAcr ('_' :: xs) := by
    match xs with
    | [] => rfl
    | y :: ys =>
      rw [insertAcr_cons3]
      have : isUpperAscii '_' = false := by decide
      simp [this]
  rw [h1, insertAcr_cons_of_not_upper '_' xs (by decide)]

lemma insertLU_head (c : Char) (l : List Char) : ∃ t, insertLU (c :: l) = c :: t := by
  match l with
  | [] => exact ⟨[], rfl⟩
  | c2 :: rest =>
    rw [insertLU_cons2]
    split
    · exact ⟨'_' :: insertLU (c2 :: rest), rfl⟩
    · exact ⟨insertLU (c2 :: rest), rfl⟩

lemma insertAcr_insertLU (l : List Char) : insertAcr (insertLU l) = insertBoundaries l := by
  induction l with
  | nil => rfl
  | cons c1 tl ih =>
    cases tl with
    | nil => rfl
    | cons c2 rest =>
      rw [insertLU_cons2, insertBoundaries_cons2]
      cases h1 : ((isLowerAscii c1 || isDigitAscii c1) && isUpperAscii c2) with
      | true =>
        have hb : snakeBoundary c1 c2 rest.head? = true := by
          unfold snakeBoundary
          rw [h1, Bool.true_or]
        rw [if_pos rfl, if_pos hb, insertAcr_underscore, ih]
      | false =>
        rw [if_neg (by simp)]
        cases rest with
        | nil =>
          have hb : snakeBoundary c1 c2 none = false := by
            simp [snakeBoundary, h1]
          rw [if_neg (by simp [hb])]
          rfl
        | cons c3 r' =>
          rw [insertLU_cons2 c2 c3 r']
          cases h2 : ((isLowerAscii c2 || isDigitAscii c2) && isUpperAscii c3) with
          | true =>
            rw [if_pos rfl]
            -- c2 is lowercase-or-digit here, hence not uppercase: no acronym boundary at c1.
            have hc2 : isUpperAscii c2 = false := by
              rw [Bool.and_eq_true, Bool.or_eq_true] at h2
              rcases h2.1 with h | h
              · exact not_upper_of_lower h
              · exact not_upper_of_digit h
            have hb : snakeBoundary c1 c2 (some c3) = false := by
              simp [snakeBoundary, h1, hc2]
            have hstep : insertAcr (c1 :: c2 :: '_' :: insertLU (c3 :: r')) =
                c1 :: insertAcr (c2 :: '_' :: insertLU (c3 :: r')) := by
              rw [insertAcr_cons3]
              have : isLowerAscii '_' = false := by decide
              simp [this]
            have hlu2 : insertLU (c2 :: c3 :: r') = c2 :: '_' :: insertLU (c3 :: r') := by
              rw [insertLU_cons2, if_pos (by rw [h2])]
            rw [hstep, if_neg (by simp [hb]), ← hlu2, ih]
          | false =>
            rw [if_neg (by simp)]
            obtain ⟨t, ht⟩ := insertLU_head c3 r'
            rw [ht, insertAcr_cons3]
            have hlu : insertLU (c2 :: c3 :: r') = c2 :: c3 :: t := by
              rw [insertLU_cons2, if_neg (by simp [h2]), ht]
            cases h3 : (isUpperAscii c1 && isUpperAscii c2 && isLowerAscii c3) with
            | true =>
              have hb : snakeBoundary c1 c2 (some c3) = true := by
                simp [snakeBoundary, h1, h3]
              rw [if_pos rfl, if_pos (by simp [hb]), ← hlu, ih]
            | false =>
              have hb : snakeBoundary c1 c2 (some c3) = false := by
                simp [snakeBoundary, h1, h3]
              rw [if_neg (by simp), if_neg (by simp [hb]), ← hlu, ih]

/-- C1: `normalizeToSnakeCase` is exactly the boundary-insertion-then-lowercase
algorithm the spec describes, and on `"NFTCollection"` it inserts the single
boundary before the final capitalized word instead of splitting the acronym
per letter. -/
theorem c1_normalize_matches_boundary_spec :
    (∀ s : String, normalizeToSnakeCase s = normalizeToSnakeCaseSpec s)
    ∧ normalizeToSnakeCase "NFTCollection" = "nft_collection"
    ∧ normalizeToSnakeCase "NFTCollection" ≠ "n_f_t_collection" := by
  refine ⟨?_, by decide, by decide⟩
  intro s
  unfold normalizeToSnakeCase normalizeToSnakeCaseSpec
  split
  · rename_i h
    rw [h]
    rfl
  · rw [insertAcr_insertLU]

/-! ### Idempotence of the normalizer -/

lemma insertLU_of_no_upper (l : List Char) (h : ∀ c ∈ l, isUpperAscii c = false) :
    insertLU l = l := by
  induction l with
  | nil => rfl
  | cons c1 tl ih =>
    cases tl with
    | nil => rfl
    | cons c2 rest =>
      have hc2 : isUpperAscii c2 = false := h c2 (by simp)
      rw [insertLU_cons2, if_neg (by simp [hc2])]
      rw [ih (fun c hc => h c (List.mem_cons_of_mem _ hc))]

lemma insertAcr_of_no_upper (l : List Char) (h : ∀ c ∈ l, isUpperAscii c = false) :
    insertAcr l = l := by
  induction l with
  | nil => rfl
  | cons c1 tl ih =>
    cases tl with
    | nil => rfl
    | cons c2 rest2 =>
      cases rest2 with
      | nil => rfl
      | cons c3 r =>
        have hc1 : isUpperAscii c1 = false := h c1 (by simp)
        rw [insertAcr_cons3, if_neg (by simp [hc1])]
        rw [ih (fun c hc => h c (List.mem_cons_of_mem _ hc))]

lemma map_toLowerAscii_of_no_upper (l : List Char) (h : ∀ c ∈ l, isUpperAscii c = false) :
    l.map toLowerAscii = l := by
  induction l with
  | nil => rfl
  | cons a as ih =>
    simp only [List.map_cons, toLowerAscii_eq_of_not_upper (h a (by simp)),
      ih (fun c hc => h c (List.mem_cons_of_mem _ hc))]

lemma normalize_of_no_upper (t : String) (h : ∀ c ∈ t.data, isUpperAscii c = false) :
    normalizeToSnakeCase t = t := by
  by_cases h0 : t = ""
  · rw [h0]; rfl
  · unfold normalizeToSnakeCase
    rw [if_neg h0, insertLU_of_no_upper _ h, insertAcr_of_no_upper _ h,
      map_toLowerAscii_of_no_upper _ h]

lemma no_upper_in_normalize (s : String) :
    ∀ c ∈ (normalizeToSnakeCase s).data, isUpperAscii c = false := by
  by_cases hs : s = ""
  · rw [hs]
    intro c hc
    rw [show (normalizeToSnakeCase "").data = [] from rfl] at hc
    cases hc
  · unfold normalizeToSnakeCase
    rw [if_neg hs]
    intro c hc
    obtain ⟨x, _, hx⟩ := List.mem_map.mp hc
    rw [← hx]
    exact isUpperAscii_toLowerAscii x

/-- C7: on strings of letters and digits (in fact on all strings), applying
`normalizeToSnakeCase` to its own output returns that output unchanged. -/
theorem c7_normalize_idempotent (s : String)
    (_ : ∀ c ∈ s.data, (isUpperAscii c || isLowerAscii c || isDigitAscii c) = true) :
    normalizeToSnakeCase (normalizeToSnakeCase s) = normalizeToSnakeCase s :=
  normalize_of_no_upper _ (no_upper_in_normalize s)

/-- Witness for C7 at the concrete input `"NFTCollection"`. -/
theorem c7_normalize_idempotent_witness :
    (∀ c ∈ ("NFTCollection" : String).data,
        (isUpperAscii c || isLowerAscii c || isDigitAscii c) = true)
    ∧ normalizeToSnakeCase (normalizeToSnakeCase "NFTCollection") =
        normalizeToSnakeCase "NFTCollection" :=
  ⟨by decide, c7_normalize_idempotent "NFTCollection" (by decide)⟩

/-! ### Data model (`src/types.ts`) and POSIX path helpers

Paths are modelled as `/`-separated strings, relative to the project root
unless stated otherwise; the `path` module functions used by the linter are
embedded below with Node's POSIX semantics. -/

inductive ErrorType where
  | StructureValidation
  | BrokenProject
  | NamingConsistency
  | MissingContract
deriving DecidableEq, Repr

structure LinterError where
  type : ErrorType
  file : String
  message : String
deriving DecidableEq, Repr

def splitOnChar (sep : Char) : List Char → List (List Char)
  | [] => [[]]
  | c :: rest =>
    let r := splitOnChar sep rest
    if c = sep then [] :: r
    else
      match r with
      | [] => [[c]]
      | g :: gs => (c :: g) :: gs

def pathComponents (p : String) : List String := (splitOnChar '/' p.data).map String.mk

/-- `path.basename` (POSIX): the last non-empty path component. -/
def basenameStr (p : String) : String :=
  (((pathComponents p).filter (fun c => c ≠ "")).reverse.headD "")

/-- Splits a basename into `(name, ext)` the way `path.parse` / `path.extname`
do: the extension starts at the last dot, and a dot that is the leading
character of the basename starts no extension. -/
def splitExtension (base : String) : String × String :=
  let cs := base.data
  let extRev := cs.reverse.takeWhile (fun c => c ≠ '.')
  if extRev.length = cs.length ∨ extRev.length + 1 = cs.length then (base, "")
  else (String.mk (cs.take (cs.length - 1 - extRev.length)),
        String.mk (cs.drop (cs.length - 1 - extRev.length)))

/-- `path.extname` of a path. -/
def extnameStr (p : String) : String := (splitExtension (basenameStr p)).2

/-- `path.parse(p).name`: the basename without its extension; also
`path.basename(p, path.extname(p))`. -/
def parseNameStr (p : String) : String := (splitExtension (basenameStr p)).1

/-- `path.dirname` (POSIX), following Node's algorithm: drop trailing slashes,
then cut before the last slash; degenerate cases give `.`, `/` or `//`. -/
def dirnameStr (p : String) : String :=
  match p.data with
  | [] => "."
  | cs =>
    let hasRoot := decide (cs.head? = some '/')
    let r2 := (cs.reverse.dropWhile (fun c => c = '/')).dropWhile (fun c => c ≠ '/')
    if r2.length ≤ 1 then (if hasRoot then "/" else ".")
    else if hasRoot ∧ r2.length = 2 then "//"
    else String.mk (cs.take (r2.length - 1))

def strEndsWith (s suf : String) : Bool :=
  decide (s.data.reverse.take suf.data.length = suf.data.reverse)

def strStartsWith (s pre : String) : Bool :=
  decide (s.data.take pre.data.length = pre.data)

/-- Drop the last `n` characters (`fileName.substring(0, fileName.length - n)`). -/
def dropLastChars (s : String) (n : Nat) : String :=
  String.mk (s.data.take (s.data.length - n))

def toLowerStr (s : String) : String := String.mk (s.data.map toLowerAscii)

example : basenameStr "contracts/MyJetton.fc" = "MyJetton.fc" := by decide
example : extnameStr "contracts/foo.spec.ts" = ".ts" := by decide
example : parseNameStr "contracts/foo.spec.ts" = "foo.spec" := by decide
example : extnameStr "contracts/.gitignore" = "" := by decide
example : dirnameStr "contracts/sub/foo.fc" = "contracts/sub" := by decide
example : dirnameStr "/" = "/" := by decide
example : dirnameStr "foo.fc" = "." := by decide
example : dirnameStr "/work/proj" = "/work" := by decide

/-- `getNormalizedBaseName` from `src/utils/normalizeName.ts`: basename minus
extension, with a trailing `.spec` / `.test` marker stripped before
normalizing. -/
def getNormalizedBaseName (filePath : String) : String :=
  let base := parseNameStr filePath
  if strEndsWith base ".spec" || strEndsWith base ".test" then
    normalizeToSnakeCase (dropLastChars base 5)
  else
    normalizeToSnakeCase base

example : getNormalizedBaseName "contracts/MyContract.fc" = "my_contract" := by decide
example : getNormalizedBaseName "tests/MyContract.spec.ts" = "my_contract" := by decide

/-! ### Duplicate contract name detection (`src/rules/duplicateContractNames.ts`)

The `contracts/**/*.*` glob (invoked with no ignore list) is the external
collaborator; `lintDuplicateContractNames` takes the project-relative paths it
would return. -/

/-- `normalizeContractName`: basename without extension, lowercased,
underscores removed. -/
def normalizeContractName (filename : String) : String :=
  String.mk (((parseNameStr filename).data.map toLowerAscii).filter (fun c => c ≠ '_'))

/-- One insertion into the `normalizedNamesMap`: a JS `Map` keeps keys in
first-insertion order and the path is pushed onto its key's array. -/
def addToGroup : List (String × List String) → String → String → List (String × List String)
  | [], k, v => [(k, [v])]
  | (k', vs) :: rest, k, v =>
    if k' = k then (k', vs ++ [v]) :: rest
    else (k', vs) :: addToGroup rest k v

def buildNamesMap (files : List String) : List (String × List String) :=
  files.foldl (fun m f => addToGroup m (normalizeContractName f) f) []

def dupMessage (paths : List String) : String :=
  "Duplicate filename detected in \x27contracts\x27 directory: " ++
    String.intercalate ", " paths ++
    ". Filenames should be unique, ignoring case, underscores, and extensions."

def dupError (grp : List String) (p : String) : LinterError :=
  { type := ErrorType.NamingConsistency, file := p, message := dupMessage grp }

/-- The errors one map entry produces: one per member path when the group has
two or more members. -/
def dupEntryErrors (e : String × List String) : List LinterError :=
  if 2 ≤ e.2.length then e.2.map (dupError e.2) else []

def lintDuplicateContractNames (files : List String) : List LinterError :=
  (buildNamesMap files).flatMap dupEntryErrors

set_option maxRecDepth 4096 in
example :
    lintDuplicateContractNames ["contracts/MyJetton.fc", "contracts/my_jetton.tact"] =
      [dupError ["contracts/MyJetton.fc", "contracts/my_jetton.tact"] "contracts/MyJetton.fc",
       dupError ["contracts/MyJetton.fc", "contracts/my_jetton.tact"] "contracts/my_jetton.tact"] := by
  decide

example : normalizeContractName "contracts/MyJetton.fc" = "myjetton" := by decide

/-! Association-list facts about the grouping map. -/

def lookupG : List (String × List String) → String → List String
  | [], _ => []
  | (k', vs) :: rest, k => if k' = k then vs else lookupG rest k

def keysOf (m : List (String × List String)) : List String := m.map Prod.fst

lemma keysOf_nil : keysOf [] = [] := rfl

lemma keysOf_cons (e : String × List String) (rest : List (String × List String)) :
    keysOf (e :: rest) = e.1 :: keysOf rest := rfl

lemma lookupG_addToGroup_same (m : List (String × List String)) (k v : String) :
    lookupG (addToGroup m k v) k = lookupG m k ++ [v] := by
  induction m with
  | nil => simp [addToGroup, lookupG]
  | cons e rest ih =>
    obtain ⟨k', vs⟩ := e
    by_cases h : k' = k
    · subst h
      simp [addToGroup, lookupG]
    · simp [addToGroup, lookupG, h, ih]

lemma lookupG_addToGroup_ne (m : List (String × List String)) (k v k' : String)
    (h : k' ≠ k) : lookupG (addToGroup m k v) k' = lookupG m k' := by
  have h' : ¬(k = k') := fun hh => h hh.symm
  induction m with
  | nil => simp [addToGroup, lookupG, h']
  | cons e rest ih =>
    obtain ⟨k'', vs⟩ := e
    by_cases h2 : k'' = k
    · subst h2
      simp [addToGroup, lookupG, h']
    · simp [addToGroup, lookupG, h2, ih]

lemma keysOf_addToGroup (m : List (String × List String)) (k v : String) :
    keysOf (addToGroup m k v) = if k ∈ keysOf m then keysOf m else keysOf m ++ [k] := by
  induction m with
  | nil => simp [addToGroup, keysOf]
  | cons e rest ih =>
    obtain ⟨k', vs⟩ := e
    by_cases h : k' = k
    · subst h
      simp [addToGroup, keysOf_cons]
    · have hne : ¬(k = k') := fun hh => h hh.symm
      simp only [addToGroup, if_neg h, keysOf_cons, ih]
      by_cases h2 : k ∈ keysOf rest
      · rw [if_pos h2, if_pos (List.mem_cons_of_mem _ h2)]
      · rw [if_neg h2, if_neg (by simp [List.mem_cons, hne, h2]), List.cons_append]

lemma nodup_keys_addToGroup (m : List (String × List String)) (k v : String)
    (h : (keysOf m).Nodup) : (keysOf (addToGroup m k v)).Nodup := by
  rw [keysOf_addToGroup]
  split
  · exact h
  · rename_i hnot
    rw [List.nodup_append]
    refine ⟨h, List.nodup_singleton k, ?_⟩
    intro a ha hb
    simp only [List.mem_singleton] at hb
    subst hb
    exact hnot ha

lemma mem_keysOf_of_mem {m : List (String × List String)} {k : String} {vs : List String}
    (h : (k, vs) ∈ m) : k ∈ keysOf m :=
  List.mem_map_of_mem Prod.fst h

lemma mem_iff_lookupG {m : List (String × List String)} (hm : (keysOf m).Nodup)
    (k : String) (vs : List String) :
    (k, vs) ∈ m ↔ (k ∈ keysOf m ∧ vs = lookupG m k) := by
  induction m with
  | nil => simp [keysOf, lookupG]
  | cons e rest ih =>
    obtain ⟨k', vs'⟩ := e
    rw [keysOf_cons] at hm
    have hrest : (keysOf rest).Nodup := (List.nodup_cons.mp hm).2
    have hknotin : k' ∉ keysOf rest := (List.nodup_cons.mp hm).1
    by_cases h : k = k'
    · subst h
      constructor
      · intro hmem
        rcases List.mem_cons.mp hmem with heq | hmemr
        · injection heq with h1 h2
          subst h2
          exact ⟨by simp [keysOf_cons], by simp [lookupG]⟩
        · exact absurd (mem_keysOf_of_mem hmemr) hknotin
      · rintro ⟨-, hvs⟩
        simp only [lookupG, if_pos rfl] at hvs
        subst hvs
        exact List.mem_cons_self _ _
    · have hne : ¬(k' = k) := fun hh => h hh.symm
      constructor
      · intro hmem
        rcases List.mem_cons.mp hmem with heq | hmemr
        · injection heq with h1 h2
          exact absurd h1 h
        · have hr := (ih hrest).mp hmemr
          refine ⟨by simp [keysOf_cons, List.mem_cons, hr.1], ?_⟩
          simpa [lookupG, hne] using hr.2
      · rintro ⟨hk, hvs⟩
        rw [keysOf_cons] at hk
        rcases List.mem_cons.mp hk with heq | hkr
        · exact absurd heq h
        · exact List.mem_cons_of_mem _
            ((ih hrest).mpr ⟨hkr, by simpa [lookupG, hne] using hvs⟩)

lemma mem_keys_addToGroup (m : List (String × List String)) (k v k' : String) :
    k' ∈ keysOf (addToGroup m k v) ↔ (k' ∈ keysOf m ∨ k' = k) := by
  rw [keysOf_addToGroup]
  split
  · rename_i h
    constructor
    · exact Or.inl
    · rintro (hh | rfl)
      · exact hh
      · exact h
  · simp [List.mem_append]

lemma lookupG_buildFold (files : List String) :
    ∀ (m : List (String × List String)) (k : String),
      lookupG (files.foldl (fun m f => addToGroup m (normalizeContractName f) f) m) k =
        lookupG m k ++ files.filter (fun f => normalizeContractName f = k) := by
  induction files with
  | nil =>
    intro m k
    simp
  | cons f fs ih =>
    intro m k
    rw [List.foldl_cons, ih]
    by_cases h : normalizeContractName f = k
    · subst h
      rw [lookupG_addToGroup_same]
      simp [List.filter_cons, List.append_assoc]
    · rw [lookupG_addToGroup_ne _ _ _ _ (fun hh => h hh.symm)]
      simp [List.filter_cons, h]

lemma nodup_keys_buildFold (files : List String) :
    ∀ (m : List (String × List String)), (keysOf m).Nodup →
      (keysOf (files.foldl (fun m f => addToGroup m (normalizeContractName f) f) m)).Nodup := by
  induction files with
  | nil => exact fun m h => h
  | cons f fs ih =>
    intro m hm
    rw [List.foldl_cons]
    exact ih _ (nodup_keys_addToGroup _ _ _ hm)

lemma mem_keys_buildFold (files : List String) :
    ∀ (m : List (String × List String)) (k : String),
      k ∈ keysOf (files.foldl (fun m f => addToGroup m (normalizeContractName f) f) m) ↔
        (k ∈ keysOf m ∨ k ∈ files.map normalizeContractName) := by
  induction files with
  | nil =>
    intro m k
    simp
  | cons f fs ih =>
    intro m k
    rw [List.foldl_cons, ih, mem_keys_addToGroup, List.map_cons, List.mem_cons]
    tauto

lemma filter_flatMap {α β : Type} (l : List α) (g : α → List β) (q : β → Bool) :
    (l.flatMap g).filter q = l.flatMap (fun a => (g a).filter q) := by
  induction l with
  | nil => rfl
  | cons a as ih => simp [List.flatMap_cons, List.filter_append, ih]

lemma dupEntryErrors_filter_ne (files : List String) (p : String)
    (e : String × List String)
    (he : e.2 = files.filter (fun f => normalizeContractName f = e.1))
    (hne : e.1 ≠ normalizeContractName p) :
    (dupEntryErrors e).filter (fun err => err.file = p) = [] := by
  unfold dupEntryErrors
  split
  · rw [List.filter_eq_nil_iff]
    intro err herr
    obtain ⟨q, hq, rfl⟩ := List.mem_map.mp herr
    rw [he] at hq
    have hkq : normalizeContractName q = e.1 := by
      have := (List.mem_filter.mp hq).2
      exact of_decide_eq_true this
    simp only [dupError, decide_eq_true_eq]
    intro hqp
    exact hne (by rw [← hkq, hqp])
  · rfl

lemma dupEntryErrors_filter_self (files : List String) (p : String)
    (hnd : files.Nodup) (hp : p ∈ files) :
    ((dupEntryErrors (normalizeContractName p,
        files.filter (fun f => normalizeContractName f = normalizeContractName p))).filter
          (fun err => err.file = p)) =
      if 2 ≤ (files.filter (fun f => normalizeContractName f = normalizeContractName p)).length
      then [dupError (files.filter (fun f => normalizeContractName f = normalizeContractName p)) p]
      else [] := by
  have hpgrp : p ∈ files.filter (fun f => normalizeContractName f = normalizeContractName p) :=
    List.mem_filter.mpr ⟨hp, by simp⟩
  unfold dupEntryErrors
  dsimp only
  split
  · rw [List.filter_map]
    have hfun : ((fun err => decide (err.file = p)) ∘
        dupError (files.filter (fun f => normalizeContractName f = normalizeContractName p))) =
        (fun q => decide (q = p)) := rfl
    rw [hfun, List.filter_eq,
      List.count_eq_one_of_mem (hnd.filter _) hpgrp]
    rfl
  · rfl

lemma flatMap_dup_nil (files : List String) (p : String)
    (E : List (String × List String))
    (hE : ∀ k vs, (k, vs) ∈ E → vs = files.filter (fun f => normalizeContractName f = k))
    (hout : normalizeContractName p ∉ keysOf E) :
    E.flatMap (fun e => (dupEntryErrors e).filter (fun err => err.file = p)) = [] := by
  induction E with
  | nil => rfl
  | cons e rest ih =>
    obtain ⟨k, vs⟩ := e
    rw [List.flatMap_cons]
    have h1 : (dupEntryErrors (k, vs)).filter (fun err => err.file = p) = [] := by
      refine dupEntryErrors_filter_ne files p (k, vs) (hE k vs (by simp)) ?_
      intro hkp
      exact hout (by rw [keysOf_cons, ← hkp]; exact List.mem_cons_self _ _)
    rw [h1, List.nil_append]
    exact ih (fun k' vs' h => hE k' vs' (List.mem_cons_of_mem _ h))
      (fun hin => hout (by rw [keysOf_cons]; exact List.mem_cons_of_mem _ hin))

lemma flatMap_dup_spec (files : List String) (p : String)
    (hnd : files.Nodup) (hp : p ∈ files) :
    ∀ (E : List (String × List String)), (keysOf E).Nodup →
      (∀ k vs, (k, vs) ∈ E → vs = files.filter (fun f => normalizeContractName f = k)) →
      normalizeContractName p ∈ keysOf E →
      E.flatMap (fun e => (dupEntryErrors e).filter (fun err => err.file = p)) =
        (if 2 ≤ (files.filter
            (fun f => normalizeContractName f = normalizeContractName p)).length
         then [dupError
            (files.filter (fun f => normalizeContractName f = normalizeContractName p)) p]
         else []) := by
  intro E
  induction E with
  | nil =>
    intro _ _ h
    simp [keysOf] at h
  | cons e rest ih =>
    intro hnd' hE hin
    obtain ⟨k, vs⟩ := e
    rw [List.flatMap_cons]
    rw [keysOf_cons] at hin
    have hnd'' := List.nodup_cons.mp (by rw [keysOf_cons] at hnd'; exact hnd')
    by_cases hk : k = normalizeContractName p
    · subst hk
      have hvs : vs = files.filter
          (fun f => normalizeContractName f = normalizeContractName p) :=
        hE _ _ (by simp)
      rw [hvs, dupEntryErrors_filter_self files p hnd hp,
        flatMap_dup_nil files p rest
          (fun k' vs' h => hE k' vs' (List.mem_cons_of_mem _ h)) hnd''.1,
        List.append_nil]
    · have h1 : (dupEntryErrors (k, vs)).filter (fun err => err.file = p) = [] :=
        dupEntryErrors_filter_ne files p (k, vs) (hE k vs (by simp))
          (fun hh => hk hh)
      rw [h1, List.nil_append]
      refine ih hnd''.2 (fun k' vs' h => hE k' vs' (List.mem_cons_of_mem _ h)) ?_
      rcases List.mem_cons.mp hin with heq | hinr
      · exact absurd heq.symm hk
      · exact hinr

/-- C2: for a duplicate-free list of scanned contract files, each file of a
normalization-key group of size at least two receives exactly one diagnostic,
whose message lists every member path of that group; a file whose key group is
a singleton receives none. -/
theorem c2_duplicate_name_groups (files : List String) (p : String)
    (hnd : files.Nodup) (hp : p ∈ files) :
    (lintDuplicateContractNames files).filter (fun e => e.file = p) =
      (if 2 ≤ (files.filter
          (fun f => normalizeContractName f = normalizeContractName p)).length
       then [dupError
          (files.filter (fun f => normalizeContractName f = normalizeContractName p)) p]
       else []) := by
  unfold lintDuplicateContractNames
  rw [filter_flatMap]
  have hkeys : (keysOf (buildNamesMap files)).Nodup :=
    nodup_keys_buildFold files [] (by simp [keysOf])
  have hlook : ∀ k, lookupG (buildNamesMap files) k =
      files.filter (fun f => normalizeContractName f = k) := by
    intro k
    unfold buildNamesMap
    rw [lookupG_buildFold]
    simp [lookupG]
  have hmem : ∀ k vs, (k, vs) ∈ buildNamesMap files →
      vs = files.filter (fun f => normalizeContractName f = k) := by
    intro k vs h
    have := ((mem_iff_lookupG hkeys k vs).mp h).2
    rw [hlook k] at this
    exact this
  have hk0in : normalizeContractName p ∈ keysOf (buildNamesMap files) := by
    unfold buildNamesMap
    rw [mem_keys_buildFold]
    exact Or.inr (List.mem_map_of_mem _ hp)
  exact flatMap_dup_spec files p hnd hp (buildNamesMap files) hkeys hmem hk0in

/-- Witness for C2 at the two spec example files (same key `myjetton`). -/
theorem c2_duplicate_name_groups_witness :
    (["contracts/MyJetton.fc", "contracts/my_jetton.tact"] : List String).Nodup ∧
    "contracts/MyJetton.fc" ∈ (["contracts/MyJetton.fc", "contracts/my_jetton.tact"] : List String) ∧
    ((lintDuplicateContractNames ["contracts/MyJetton.fc", "contracts/my_jetton.tact"]).filter
        (fun e => e.file = "contracts/MyJetton.fc") =
      (if 2 ≤ ((["contracts/MyJetton.fc", "contracts/my_jetton.tact"] : List String).filter
          (fun f => normalizeContractName f =
            normalizeContractName "contracts/MyJetton.fc")).length
       then [dupError ((["contracts/MyJetton.fc", "contracts/my_jetton.tact"] : List String).filter
          (fun f => normalizeContractName f =
            normalizeContractName "contracts/MyJetton.fc")) "contracts/MyJetton.fc"]
       else [])) :=
  ⟨by decide, by decide,
    c2_duplicate_name_groups ["contracts/MyJetton.fc", "contracts/my_jetton.tact"]
      "contracts/MyJetton.fc" (by decide) (by decide)⟩

/-! ### Contract snake_case naming check (`src/checks/namingConsistency.ts`)

`findFiles` globs the target directories with
`ignore: ['**/node_modules/**']`, skips `.d.ts` files, keeps files physically
under a target directory, builds a `FileInfo` per path and de-duplicates by
path.  The glob is the external collaborator: the model receives the listing
of project-relative paths and performs the same selection. -/

def DEFAULT_DIRS : List String := ["contracts", "wrappers", "scripts", "tests"]

def CONTRACT_EXTENSIONS : List String := [".tact", ".fc", ".func"]

def TS_EXTENSIONS : List String := [".ts"]

def TEST_EXTENSIONS : List String := [".spec.ts", ".test.ts"]

structure FileInfo where
  filePath : String
  dir : String
  baseName : String
  normalizedBaseName : String
  isContract : Bool
  isTs : Bool
  isTest : Bool
deriving DecidableEq, Repr

/-- The extension patterns of `findFiles` (`**/*{.tact,.fc,.func,.ts,.spec.ts,.test.ts}`);
the two test suffixes already end in `.ts`. -/
def relevantExt (p : String) : Bool :=
  CONTRACT_EXTENSIONS.any (fun e => strEndsWith p e) || strEndsWith p ".ts"

/-- A path the `'**/node_modules/**'` ignore pattern excludes. -/
def underNodeModules (p : String) : Bool := (pathComponents p).contains "node_modules"

/-- `isInTargetDir`: the file's directory is a target directory or a
subdirectory of one. -/
def inTargetDirs (targetDirs : List String) (p : String) : Bool :=
  targetDirs.any (fun t => dirnameStr p = t || strStartsWith (dirnameStr p) (t ++ "/"))

def findFilesSelection (fsPaths : List String) (targetDirs : List String) : List String :=
  fsPaths.filter (fun p =>
    relevantExt p && !underNodeModules p && !strEndsWith p ".d.ts" && inTargetDirs targetDirs p)

def fileInfoOfPath (p : String) : FileInfo :=
  { filePath := p
    dir := basenameStr (dirnameStr p)
    baseName := parseNameStr p
    normalizedBaseName := getNormalizedBaseName p
    isContract := CONTRACT_EXTENSIONS.contains (extnameStr p)
    isTs := !(TEST_EXTENSIONS.any (fun e => strEndsWith p e))
             && TS_EXTENSIONS.contains (extnameStr p)
    isTest := TEST_EXTENSIONS.any (fun e => strEndsWith p e) }

/-- The `new Map(files.map(f => [f.filePath, f]))` de-duplication; duplicate
paths carry equal `FileInfo`s here, so keeping the first is the map's result. -/
def dedupByPathAux (seen : List String) : List FileInfo → List FileInfo
  | [] => []
  | f :: rest =>
    if seen.contains f.filePath then dedupByPathAux seen rest
    else f :: dedupByPathAux (f.filePath :: seen) rest

def findFiles (fsPaths : List String) (targetDirs : List String) : List FileInfo :=
  dedupByPathAux [] ((findFilesSelection fsPaths targetDirs).map fileInfoOfPath)

def namingErrorMessage (expected actual : String) : String :=
  "Contract file should use snake_case. Expected: \x27" ++ expected ++
    "\x27, Actual: \x27" ++ actual ++ "\x27."

def namingError (c : FileInfo) : LinterError :=
  { type := ErrorType.NamingConsistency
    file := c.filePath
    message := namingErrorMessage (c.normalizedBaseName ++ extnameStr c.filePath)
      (c.baseName ++ extnameStr c.filePath) }

def performConsistencyCheck (contractFiles : List FileInfo) : List LinterError :=
  contractFiles.foldl
    (fun errs c =>
      if c.baseName ≠ c.normalizedBaseName then errs ++ [namingError c] else errs) []

def checkNamingConsistency (fsPaths : List String) (targetDirs : List String) :
    List LinterError :=
  performConsistencyCheck ((findFiles fsPaths targetDirs).filter (fun f => f.isContract))

def namingPayload (c : FileInfo) : List LinterError :=
  if c.baseName ≠ c.normalizedBaseName then [namingError c] else []

lemma performConsistencyCheck_general (l : List FileInfo) :
    ∀ acc, l.foldl
      (fun errs c =>
        if c.baseName ≠ c.normalizedBaseName then errs ++ [namingError c] else errs) acc =
      acc ++ l.flatMap namingPayload := by
  induction l with
  | nil =>
    intro acc
    simp
  | cons c cs ih =>
    intro acc
    rw [List.foldl_cons, List.flatMap_cons]
    by_cases h : c.baseName = c.normalizedBaseName
    · rw [if_neg (by simp [h]), ih]
      simp [namingPayload, h]
    · rw [if_pos h, ih]
      simp [namingPayload, h, List.append_assoc]

lemma performConsistencyCheck_eq_flatMap (l : List FileInfo) :
    performConsistencyCheck l = l.flatMap namingPayload := by
  have := performConsistencyCheck_general l []
  simpa [performConsistencyCheck] using this

lemma namingPayload_filter_ne (q p : String) (hne : q ≠ p) :
    (namingPayload (fileInfoOfPath q)).filter (fun e => e.file = p) = [] := by
  unfold namingPayload
  split
  · simp [namingError, fileInfoOfPath, hne]
  · rfl

lemma naming_flatMap_nil (p : String) (l : List String) (hout : p ∉ l) :
    ((l.map fileInfoOfPath).filter (fun f => f.isContract)).flatMap
      (fun c => (namingPayload c).filter (fun e => e.file = p)) = [] := by
  induction l with
  | nil => rfl
  | cons q rest ih =>
    rw [List.map_cons]
    have hq : q ≠ p := fun h => hout (h ▸ List.mem_cons_self _ _)
    have ihr := ih (fun h => hout (List.mem_cons_of_mem _ h))
    by_cases hc : (fileInfoOfPath q).isContract = true
    · rw [List.filter_cons_of_pos hc, List.flatMap_cons,
        namingPayload_filter_ne q p hq, List.nil_append]
      exact ihr
    · rw [List.filter_cons_of_neg hc]
      exact ihr

lemma naming_flatMap_spec (p : String) (sel : List String) (hnd : sel.Nodup)
    (hp : p ∈ sel) (hc : (fileInfoOfPath p).isContract = true) :
    ((sel.map fileInfoOfPath).filter (fun f => f.isContract)).flatMap
        (fun c => (namingPayload c).filter (fun e => e.file = p)) =
      (if parseNameStr p = getNormalizedBaseName p then []
       else [namingError (fileInfoOfPath p)]) := by
  induction sel with
  | nil => cases hp
  | cons q rest ih =>
    rw [List.map_cons]
    obtain ⟨hnotin, hndr⟩ := List.nodup_cons.mp hnd
    rcases List.mem_cons.mp hp with rfl | hpr
    · rw [List.filter_cons_of_pos hc, List.flatMap_cons,
        naming_flatMap_nil p rest hnotin, List.append_nil]
      unfold namingPayload
      by_cases h : parseNameStr p = getNormalizedBaseName p
      · rw [if_neg (by simp [fileInfoOfPath, h]), if_pos h]
        rfl
      · rw [if_pos (by simp [fileInfoOfPath, h]), if_neg h]
        simp [namingError, fileInfoOfPath]
    · have hq : q ≠ p := fun h => hnotin (h ▸ hpr)
      by_cases hcq : (fileInfoOfPath q).isContract = true
      · rw [List.filter_cons_of_pos hcq, List.flatMap_cons,
          namingPayload_filter_ne q p hq, List.nil_append]
        exact ih hndr hpr
      · rw [List.filter_cons_of_neg hcq]
        exact ih hndr hpr

lemma dedupByPathAux_eq (l : List FileInfo) :
    ∀ seen, (∀ f ∈ l, f.filePath ∉ seen) →
      (l.map (fun f => f.filePath)).Nodup → dedupByPathAux seen l = l := by
  induction l with
  | nil =>
    intro seen _ _
    rfl
  | cons f rest ih =>
    intro seen hs hnd
    unfold dedupByPathAux
    rw [if_neg (by simpa using hs f (List.mem_cons_self _ _))]
    rw [List.map_cons, List.nodup_cons] at hnd
    rw [ih (f.filePath :: seen) ?_ hnd.2]
    intro g hg
    rw [List.mem_cons]
    rintro (heq | hseen)
    · exact hnd.1 (heq ▸ List.mem_map_of_mem _ hg)
    · exact hs g (List.mem_cons_of_mem _ hg) hseen

lemma findFiles_eq (fsPaths targetDirs : List String) (hnd : fsPaths.Nodup) :
    findFiles fsPaths targetDirs = (findFilesSelection fsPaths targetDirs).map fileInfoOfPath := by
  unfold findFiles
  apply dedupByPathAux_eq
  · intro f _
    simp
  · rw [List.map_map]
    have hcomp : ((fun f => f.filePath) ∘ fileInfoOfPath) = id := rfl
    rw [hcomp, List.map_id]
    exact hnd.filter _

/-- C8: a contract-extension file selected by the scan gets exactly one
snake_case diagnostic, whose expected name is the normalized stem plus the
original extension, when its stem differs from its normalization, and none
when the stem is already normalized; in particular `contracts/MyContract.fc`
yields the one diagnostic expecting `my_contract.fc` and
`contracts/my_contract.fc` yields none. -/
theorem c8_contract_naming_check :
    (∀ (fsPaths targetDirs : List String) (p : String),
      fsPaths.Nodup → p ∈ findFilesSelection fsPaths targetDirs →
      (fileInfoOfPath p).isContract = true →
      (checkNamingConsistency fsPaths targetDirs).filter (fun e => e.file = p) =
        (if parseNameStr p = getNormalizedBaseName p then []
         else [namingError (fileInfoOfPath p)]))
    ∧ checkNamingConsistency ["contracts/MyContract.fc"] DEFAULT_DIRS =
        [{ type := ErrorType.NamingConsistency, file := "contracts/MyContract.fc",
           message := namingErrorMessage "my_contract.fc" "MyContract.fc" }]
    ∧ checkNamingConsistency ["contracts/my_contract.fc"] DEFAULT_DIRS = [] := by
  refine ⟨?_, by decide, by decide⟩
  intro fsPaths targetDirs p hnd hsel hc
  unfold checkNamingConsistency
  rw [findFiles_eq _ _ hnd, performConsistencyCheck_eq_flatMap, filter_flatMap]
  exact naming_flatMap_spec p _ (hnd.filter _) hsel hc

/-- Witness for C8 at `contracts/MyContract.fc`. -/
theorem c8_contract_naming_check_witness :
    (["contracts/MyContract.fc"] : List String).Nodup ∧
    "contracts/MyContract.fc" ∈ findFilesSelection ["contracts/MyContract.fc"] DEFAULT_DIRS ∧
    (fileInfoOfPath "contracts/MyContract.fc").isContract = true ∧
    ((checkNamingConsistency ["contracts/MyContract.fc"] DEFAULT_DIRS).filter
        (fun e => e.file = "contracts/MyContract.fc") =
      (if parseNameStr "contracts/MyContract.fc" =
          getNormalizedBaseName "contracts/MyContract.fc"
       then [] else [namingError (fileInfoOfPath "contracts/MyContract.fc")])) :=
  ⟨by decide, by decide, by decide,
    c8_contract_naming_check.1 ["contracts/MyContract.fc"] DEFAULT_DIRS
      "contracts/MyContract.fc" (by decide) (by decide) (by decide)⟩

/-! ### Wrapper naming rule (`src/rules/wrapperNamingRule.ts`)

The `wrappers/**/*.ts` glob (ignoring `**/node_modules/**` and `**/*.d.ts`)
and `fs.readFile` are the external collaborators: the model receives the
project-relative path and text content of each file. -/

/-- JS regex `\s`, modelled on its ASCII members plus NBSP. -/
def isSpaceChar (c : Char) : Bool :=
  c = ' ' || c = '\t' || c = '\n' || c = '\r' || c.toNat = 12 || c.toNat = 11 || c.toNat = 160

/-- JS regex class `[A-Za-z0-9_]`. -/
def isWordChar (c : Char) : Bool :=
  isUpperAscii c || isLowerAscii c || isDigitAscii c || c = '_'

/-- `PASCAL_CASE_REGEX = /^[A-Z][a-zA-Z0-9]*$/`. -/
def isPascalCase (s : String) : Bool :=
  match s.data with
  | [] => false
  | c :: rest => isUpperAscii c && rest.all (fun d => isUpperAscii d || isLowerAscii d || isDigitAscii d)

/-- `LOWER_CAMEL_CASE_REGEX = /^[a-z][a-zA-Z0-9]*$/` (`scriptNamingRule.ts`). -/
def isLowerCamelCase (s : String) : Bool :=
  match s.data with
  | [] => false
  | c :: rest => isLowerAscii c && rest.all (fun d => isUpperAscii d || isLowerAscii d || isDigitAscii d)

def stripLit (lit : List Char) (l : List Char) : Option (List Char) :=
  if l.take lit.length = lit then some (l.drop lit.length) else none

def stripSpaces1 (l : List Char) : Option (List Char) :=
  if (l.takeWhile isSpaceChar).length = 0 then none else some (l.dropWhile isSpaceChar)

/-- One anchored attempt of
`EXPORTED_CLASS_REGEX = /export\s+(?:abstract\s+)?class\s+([A-Za-z0-9_]+)/`:
literals with maximal-munch whitespace (exact here, since every `\s+` is
followed by a letter) and a greedy word capture. -/
def matchExportedClassAt (l : List Char) : Option String :=
  match stripLit "export".data l with
  | none => none
  | some r1 =>
    match stripSpaces1 r1 with
    | none => none
    | some r2 =>
      let r3 := match stripLit "abstract".data r2 with
        | some ra =>
          match stripSpaces1 ra with
          | some rb => rb
          | none => r2
        | none => r2
      match stripLit "class".data r3 with
      | none => none
      | some r4 =>
        match stripSpaces1 r4 with
        | none => none
        | some r5 =>
          let w := r5.takeWhile isWordChar
          if w.length = 0 then none else some (String.mk w)

/-- `content.match(EXPORTED_CLASS_REGEX)`: first match over all start
positions, earliest first. -/
def findExportedClass : List Char → Option String
  | [] => none
  | c :: rest =>
    match matchExportedClassAt (c :: rest) with
    | some w => some w
    | none => findExportedClass rest

example : findExportedClass "import x\nexport abstract class Foo_9 extends Y {}".data =
    some "Foo_9" := by decide
example : findExportedClass "export classy Foo".data = none := by decide
example : isPascalCase "MyJetton" = true := by decide
example : isPascalCase "my_jetton" = false := by decide

structure WrapperFile where
  path : String
  content : String
deriving DecidableEq, Repr

/-- Suffix analysis of the wrapper file name (`.compile.ts` first, then `.ts`;
anything else is skipped by the loop). -/
def wrapperStemOf (fileName : String) : Option (String × Bool) :=
  if strEndsWith fileName ".compile.ts" then some (dropLastChars fileName 11, true)
  else if strEndsWith fileName ".ts" then some (dropLastChars fileName 3, false)
  else none

def pascalFormatError (relativePath fileName base : String) : LinterError :=
  { type := ErrorType.NamingConsistency
    file := relativePath
    message := "Wrapper file name part \x27" ++ base ++ "\x27 in \x27" ++ fileName ++
      "\x27 should be in PascalCase." }

def classMismatchError (relativePath fileName base cls : String) : LinterError :=
  { type := ErrorType.NamingConsistency
    file := relativePath
    message := "Wrapper filename \x27" ++ fileName ++ "\x27 (base \x27" ++ base ++
      "\x27) does not match the exported class name \x27" ++ cls ++ "\x27." }

/-- The loop body of `checkWrapperNaming` for one file. -/
def wrapperFileErrors (f : WrapperFile) : List LinterError :=
  match wrapperStemOf (basenameStr f.path) with
  | none => []
  | some (base, isCompileFile) =>
    if isPascalCase base = false then
      [pascalFormatError f.path (basenameStr f.path) base]
    else if isCompileFile then []
    else
      match findExportedClass f.content.data with
      | none => []
      | some cls =>
        if base ≠ cls then [classMismatchError f.path (basenameStr f.path) base cls]
        else []

def wrapperSelection (fsFiles : List WrapperFile) : List WrapperFile :=
  fsFiles.filter (fun f =>
    strStartsWith f.path "wrappers/" && strEndsWith f.path ".ts" &&
    !underNodeModules f.path && !strEndsWith f.path ".d.ts")

def checkWrapperNaming (fsFiles : List WrapperFile) : List LinterError :=
  (wrapperSelection fsFiles).flatMap wrapperFileErrors

/-- C6: per wrapper file at most one naming diagnostic; a failed PascalCase
test yields exactly the format diagnostic and skips the symbol comparison; a
compile-variant file with a passing stem yields nothing; a non-compile file
with a passing stem and no exported class found yields nothing. -/
theorem c6_wrapper_rule (f : WrapperFile) :
    (wrapperFileErrors f).length ≤ 1
    ∧ (∀ base isC, wrapperStemOf (basenameStr f.path) = some (base, isC) →
        isPascalCase base = false →
        wrapperFileErrors f = [pascalFormatError f.path (basenameStr f.path) base])
    ∧ (∀ base, wrapperStemOf (basenameStr f.path) = some (base, true) →
        isPascalCase base = true → wrapperFileErrors f = [])
    ∧ (∀ base, wrapperStemOf (basenameStr f.path) = some (base, false) →
        isPascalCase base = true → findExportedClass f.content.data = none →
        wrapperFileErrors f = []) := by
  refine ⟨?_, ?_, ?_, ?_⟩
  · unfold wrapperFileErrors
    cases hstem : wrapperStemOf (basenameStr f.path) with
    | none => simp
    | some bc =>
      obtain ⟨base, isC⟩ := bc
      dsimp only
      split
      · simp
      · split
        · simp
        · cases hfind : findExportedClass f.content.data with
          | none => simp
          | some cls =>
            dsimp only
            split <;> simp
  · intro base isC hstem hpas
    unfold wrapperFileErrors
    rw [hstem]
    dsimp only
    rw [if_pos hpas]
  · intro base hstem hpas
    unfold wrapperFileErrors
    rw [hstem]
    dsimp only
    rw [if_neg (by simp [hpas]), if_pos rfl]
  · intro base hstem hpas hfind
    unfold wrapperFileErrors
    rw [hstem]
    dsimp only
    rw [if_neg (by simp [hpas]), if_neg (by simp), hfind]

/-- Witness for C6: a snake_case wrapper file name gets exactly the format
diagnostic. -/
theorem c6_wrapper_rule_witness :
    wrapperStemOf (basenameStr (WrapperFile.mk "wrappers/bad_name.ts" "").path) =
      some ("bad_name", false) ∧
    isPascalCase "bad_name" = false ∧
    wrapperFileErrors (WrapperFile.mk "wrappers/bad_name.ts" "") =
      [pascalFormatError "wrappers/bad_name.ts" "bad_name.ts" "bad_name"] :=
  ⟨by decide, by decide,
    (c6_wrapper_rule (WrapperFile.mk "wrappers/bad_name.ts" "")).2.1 "bad_name" false
      (by decide) (by decide)⟩

/-! ### Script naming rule (`src/rules/scriptNamingRule.ts`) and the
referenced-file scan selection (`src/checks/contractFilesCheck.ts`) -/

def scriptSelection (fsPaths : List String) : List String :=
  fsPaths.filter (fun p =>
    strStartsWith p "scripts/" && strEndsWith p ".ts" &&
    !underNodeModules p && !strEndsWith p ".d.ts")

def scriptError (p : String) : LinterError :=
  { type := ErrorType.NamingConsistency
    file := p
    message := "Script file name \x27" ++ basenameStr p ++
      "\x27 should be in lowerCamelCase." }

def checkScriptNaming (fsPaths : List String) : List LinterError :=
  (scriptSelection fsPaths).flatMap
    (fun p => if isLowerCamelCase (parseNameStr p) = false then [scriptError p] else [])

/-- The `'**/*.compile.ts'` glob of `checkContractFilesExist`, which does pass
`ignore: ['**/node_modules/**']`. -/
def compileFilesSelection (fsPaths : List String) : List String :=
  fsPaths.filter (fun p => strEndsWith p ".compile.ts" && !underNodeModules p)

/-! ### C3: node_modules exclusion across the checkers

`lintDuplicateContractNames` (src/rules/duplicateContractNames.ts) calls
`glob.glob(absolutePattern, { nodir: true, withFileTypes: true })` with no
`ignore` option, unlike every other checker, so its `contracts/**/*.*` pattern
does match files under `contracts/node_modules/`. -/

/-- The `contracts/**/*.*` pattern: under `contracts/`, basename containing a
dot and not starting with one (glob's dotfile rule); no ignore list. -/
def dupGlobMatches (p : String) : Bool :=
  strStartsWith p "contracts/" &&
  !(strStartsWith (basenameStr p) ".") && (basenameStr p).data.contains '.'

/-- The duplicate scan as run against a filesystem listing: glob selection
(without any node_modules exclusion), then the checker. -/
def lintDuplicateContractNamesScan (fsPaths : List String) : List LinterError :=
  lintDuplicateContractNames (fsPaths.filter dupGlobMatches)

/-- Counterexample to C3 as stated: a file under `contracts/node_modules/` is
scanned by the duplicate-name detector and receives a diagnostic, because its
glob is invoked without the node_modules ignore list. -/
theorem c3_counterexample_duplicate_scan_reads_node_modules :
    underNodeModules "contracts/node_modules/a.fc" = true ∧
    "contracts/node_modules/a.fc" ∈
      (["contracts/A.fc", "contracts/node_modules/a.fc"].filter dupGlobMatches) ∧
    ((lintDuplicateContractNamesScan
        ["contracts/A.fc", "contracts/node_modules/a.fc"]).filter
      (fun e => e.file = "contracts/node_modules/a.fc")) ≠ [] := by
  refine ⟨by decide, by decide, by decide⟩

lemma underNM_ne {q p : String} (hq : underNodeModules q = false)
    (hp : underNodeModules p = true) : q ≠ p := by
  intro h
  rw [h, hp] at hq
  cases hq

lemma mem_dedupByPathAux {l : List FileInfo} {seen : List String} {f : FileInfo}
    (h : f ∈ dedupByPathAux seen l) : f ∈ l := by
  induction l generalizing seen with
  | nil => cases h
  | cons g rest ih =>
    unfold dedupByPathAux at h
    split at h
    · exact List.mem_cons_of_mem _ (ih h)
    · rcases List.mem_cons.mp h with rfl | hr
      · exact List.mem_cons_self _ _
      · exact List.mem_cons_of_mem _ (ih hr)

lemma namingPayload_file {c : FileInfo} {e : LinterError} (h : e ∈ namingPayload c) :
    e.file = c.filePath := by
  unfold namingPayload at h
  split at h
  · rcases List.mem_singleton.mp h with rfl
    rfl
  · cases h

lemma wrapperFileErrors_file {f : WrapperFile} {e : LinterError}
    (h : e ∈ wrapperFileErrors f) : e.file = f.path := by
  unfold wrapperFileErrors at h
  split at h
  · cases h
  · rename_i base isC heq
    split at h
    · rcases List.mem_singleton.mp h with rfl
      rfl
    · split at h
      · cases h
      · split at h
        · cases h
        · split at h
          · rcases List.mem_singleton.mp h with rfl
            rfl
          · cases h

/-- C3 amended: the contract-naming scan, the wrapper scan, the script scan
and the referenced-file scan never select a node_modules path nor emit a
diagnostic located at one; the duplicate-name detector is the exception (see
the counterexample). -/
theorem c3_node_modules_excluded_except_duplicates
    (fsPaths targetDirs : List String) (fsFiles : List WrapperFile) (p : String)
    (hnm : underNodeModules p = true) :
    p ∉ findFilesSelection fsPaths targetDirs
    ∧ (∀ e ∈ checkNamingConsistency fsPaths targetDirs, e.file ≠ p)
    ∧ (∀ f ∈ wrapperSelection fsFiles, f.path ≠ p)
    ∧ (∀ e ∈ checkWrapperNaming fsFiles, e.file ≠ p)
    ∧ p ∉ scriptSelection fsPaths
    ∧ (∀ e ∈ checkScriptNaming fsPaths, e.file ≠ p)
    ∧ p ∉ compileFilesSelection fsPaths := by
  refine ⟨?_, ?_, ?_, ?_, ?_, ?_, ?_⟩
  · intro hmem
    have := (List.mem_filter.mp hmem).2
    simp only [Bool.and_eq_true, Bool.not_eq_true'] at this
    exact absurd hnm (by simp [this.1.1.2])
  · intro e he
    unfold checkNamingConsistency at he
    rw [performConsistencyCheck_eq_flatMap] at he
    obtain ⟨c, hc, hec⟩ := List.mem_flatMap.mp he
    have hcsel := List.mem_filter.mp hc
    have hcf := mem_dedupByPathAux hcsel.1
    obtain ⟨q, hq, rfl⟩ := List.mem_map.mp hcf
    have hqsel := (List.mem_filter.mp hq).2
    simp only [Bool.and_eq_true, Bool.not_eq_true'] at hqsel
    rw [namingPayload_file hec]
    exact underNM_ne hqsel.1.1.2 hnm
  · intro f hf
    have := (List.mem_filter.mp hf).2
    simp only [Bool.and_eq_true, Bool.not_eq_true'] at this
    exact underNM_ne this.1.2 hnm
  · intro e he
    obtain ⟨f, hf, hef⟩ := List.mem_flatMap.mp he
    have := (List.mem_filter.mp hf).2
    simp only [Bool.and_eq_true, Bool.not_eq_true'] at this
    rw [wrapperFileErrors_file hef]
    exact underNM_ne this.1.2 hnm
  · intro hmem
    have := (List.mem_filter.mp hmem).2
    simp only [Bool.and_eq_true, Bool.not_eq_true'] at this
    exact absurd hnm (by simp [this.1.2])
  · intro e he
    obtain ⟨q, hq, heq⟩ := List.mem_flatMap.mp he
    have hqsel := (List.mem_filter.mp hq).2
    simp only [Bool.and_eq_true, Bool.not_eq_true'] at hqsel
    have hfile : e.file = q := by
      split at heq
      · rcases List.mem_singleton.mp heq with rfl
        rfl
      · cases heq
    rw [hfile]
    exact underNM_ne hqsel.1.2 hnm
  · intro hmem
    have := (List.mem_filter.mp hmem).2
    simp only [Bool.and_eq_true, Bool.not_eq_true'] at this
    exact absurd hnm (by simp [this.2])

/-- Witness for the amended C3 at a concrete node_modules path. -/
theorem c3_node_modules_excluded_witness :
    underNodeModules "contracts/node_modules/a.fc" = true ∧
    "contracts/node_modules/a.fc" ∉
      findFilesSelection ["contracts/node_modules/a.fc"] DEFAULT_DIRS :=
  ⟨by decide,
    (c3_node_modules_excluded_except_duplicates ["contracts/node_modules/a.fc"]
      DEFAULT_DIRS [] "contracts/node_modules/a.fc" (by decide)).1⟩

/-! ### Root folder check and directory-tree renderer
(`src/checks/rootFolderCheck.ts`, the revision that aggregates all forbidden
directories into a single diagnostic carrying a `generateDirTree` snapshot)

The filesystem is modelled by the entry tree of the parent directory, the only
part of the disk the check reads. -/

inductive FsTree where
  | file (name : String)
  | dir (name : String) (children : List FsTree)

def FsTree.name : FsTree → String
  | .file n => n
  | .dir n _ => n

def FsTree.isDir : FsTree → Bool
  | .file _ => false
  | .dir _ _ => true

def MARKER_ITEMS : List String :=
  [".cursor", ".knowledge", ".vscode", "package.json", ".windsurf",
   ".cursorrules", ".windsurfrules", "tsconfig.json"]

def FORBIDDEN_DIRS : List String :=
  ["scripts", "script", "contracts", "contract", "tests", "test", "wrappers"]

def IGNORED_ITEMS : List String :=
  ["node_modules", ".git", ".cursor", ".windsurf", ".vscode", ".knowledge"]

/-- `fs.existsSync(path.join(dir, item))` against the directory's entries. -/
def entryExists (entries : List FsTree) (nm : String) : Bool :=
  entries.any (fun e => decide (e.name = nm))

/-- `fs.existsSync(p) && fs.lstatSync(p).isDirectory()`. -/
def isDirIn (entries : List FsTree) (nm : String) : Bool :=
  entries.any (fun e => decide (e.name = nm) && e.isDir)

/-- The sort comparator of `generateDirTree`: directories first, then
`localeCompare` (modelled as code-point order) within each group. -/
def entryLe (a b : FsTree) : Bool :=
  if a.isDir = b.isDir then decide (a.name ≤ b.name) else a.isDir

/-- Noise filter and stable comparator sort applied to a directory listing. -/
def dirTreePrep (entries : List FsTree) : List FsTree :=
  (entries.filter (fun e => !(IGNORED_ITEMS.contains e.name))).mergeSort entryLe

/-- The `entries.forEach` body: connector, optional recursion line for
directories (present exactly when the depth bound allows), recursion over the
remaining entries. -/
def genTreeAux (recurse : Option (List FsTree → String → String)) (pre : String) :
    List FsTree → List String
  | [] => []
  | e :: rest =>
    let connector := if rest.isEmpty then "└── " else "├── "
    let childPre := pre ++ (if rest.isEmpty then "    " else "│   ")
    (match e with
     | .file n => [pre ++ connector ++ n]
     | .dir n cs =>
       (pre ++ connector ++ n ++ "/") ::
         (match recurse with
          | some f => [f cs childPre]
          | none => [])) ++ genTreeAux recurse pre rest

/-- `generateDirTree(dir, depth, prefix)`: recursion into subdirectories only
while `depth > 0`, with `depth - 1`; the source's `depth < 0` guard is
unreachable for the `Nat` depths it is called with. -/
def generateDirTree : Nat → List FsTree → String → String
  | 0, entries, pre =>
    String.intercalate "\n" (genTreeAux none pre (dirTreePrep entries))
  | d + 1, entries, pre =>
    String.intercalate "\n"
      (genTreeAux (some (fun cs cp => generateDirTree d cs cp)) pre (dirTreePrep entries))

def rootFolderMessage (parentEntries : List FsTree) (parentDir : String) : String :=
  let problematicFolders := FORBIDDEN_DIRS.filter (fun f => isDirIn parentEntries f)
  let fsMap := generateDirTree 2 parentEntries ""
  let foldersList :=
    String.intercalate ", " (problematicFolders.map (fun f => "\x27" ++ f ++ "\x27"))
  String.intercalate "\n"
    ["Detected forbidden " ++
        (if problematicFolders.length = 1 then "directory" else "directories") ++
        " " ++ foldersList ++ " in root \x27" ++ parentDir ++ "\x27.",
     "This is a ROOT DIRECTORY ISSUE: \x27" ++ parentDir ++
        "\x27 appears to be a project root directory that contains TON Blueprint project folders directly.",
     "This structure is not recommended. Instead, create individual blueprint projects and place contract folders inside those projects.",
     "",
     "Snapshot of the ROOT directory \x27" ++ basenameStr parentDir ++ "\x27 structure:",
     fsMap]

def checkRootFolder (parentEntries : List FsTree) (startPath : String) : List LinterError :=
  if dirnameStr startPath = startPath then []
  else
    if !(MARKER_ITEMS.any (fun item => entryExists parentEntries item)) then []
    else
      if (FORBIDDEN_DIRS.filter (fun f => isDirIn parentEntries f)).length > 0 then
        [{ type := ErrorType.StructureValidation
           file := startPath
           message := rootFolderMessage parentEntries (dirnameStr startPath) }]
      else []

lemma entryLe_trans (a b c : FsTree) (hab : entryLe a b = true) (hbc : entryLe b c = true) :
    entryLe a c = true := by
  cases a <;> cases b <;> cases c <;>
    simp [entryLe, FsTree.isDir] at * <;>
    exact le_trans hab hbc

lemma entryLe_total (a b : FsTree) : (entryLe a b || entryLe b a) = true := by
  cases a <;> cases b <;> simp [entryLe, FsTree.isDir] <;> exact le_total _ _

/-- C10: when the scan path is its own parent, the check returns no
diagnostics whatever the filesystem contains. -/
theorem c10_filesystem_root_early_return (parentEntries : List FsTree) (startPath : String)
    (h : dirnameStr startPath = startPath) :
    checkRootFolder parentEntries startPath = [] := by
  unfold checkRootFolder
  rw [if_pos h]

/-- Witness for C10 at `/`, with a parent listing full of markers and
forbidden directories that is never consulted. -/
theorem c10_filesystem_root_early_return_witness :
    dirnameStr "/" = "/" ∧
    checkRootFolder [FsTree.file "package.json", FsTree.dir "contracts" []] "/" = [] :=
  ⟨by decide,
    c10_filesystem_root_early_return
      [FsTree.file "package.json", FsTree.dir "contracts" []] "/" (by decide)⟩

/-- C4: with a marker item and at least one forbidden directory in the parent,
the check returns exactly one diagnostic whose message enumerates every
forbidden directory found and embeds the depth-2 `generateDirTree` snapshot;
the snapshot's listing is noise-filtered and sorted directories-first,
alphabetically within each group. -/
theorem c4_root_folder_single_diagnostic (parentEntries : List FsTree) (startPath : String)
    (h1 : dirnameStr startPath ≠ startPath)
    (h2 : MARKER_ITEMS.any (fun item => entryExists parentEntries item) = true)
    (h3 : (FORBIDDEN_DIRS.filter (fun f => isDirIn parentEntries f)).length > 0) :
    checkRootFolder parentEntries startPath =
      [{ type := ErrorType.StructureValidation
         file := startPath
         message := rootFolderMessage parentEntries (dirnameStr startPath) }]
    ∧ (∀ e ∈ dirTreePrep parentEntries, ¬(IGNORED_ITEMS.contains e.name = true))
    ∧ (dirTreePrep parentEntries).Pairwise (fun a b => entryLe a b = true) := by
  refine ⟨?_, ?_, ?_⟩
  · unfold checkRootFolder
    rw [if_neg h1, if_neg (by simp [h2]), if_pos h3]
  · intro e he
    have := List.mem_mergeSort.mp he
    have hf := (List.mem_filter.mp this).2
    simpa using hf
  · exact List.sorted_mergeSort entryLe_trans entryLe_total _

/-- Witness for C4: a parent with `package.json` and a `contracts` directory. -/
theorem c4_root_folder_single_diagnostic_witness :
    dirnameStr "/work/proj" ≠ "/work/proj" ∧
    MARKER_ITEMS.any (fun item =>
      entryExists [FsTree.file "package.json", FsTree.dir "contracts" []] item) = true ∧
    (FORBIDDEN_DIRS.filter (fun f =>
      isDirIn [FsTree.file "package.json", FsTree.dir "contracts" []] f)).length > 0 ∧
    checkRootFolder [FsTree.file "package.json", FsTree.dir "contracts" []] "/work/proj" =
      [{ type := ErrorType.StructureValidation
         file := "/work/proj"
         message := rootFolderMessage [FsTree.file "package.json", FsTree.dir "contracts" []]
           (dirnameStr "/work/proj") }] :=
  ⟨by decide, by decide, by decide,
    (c4_root_folder_single_diagnostic
      [FsTree.file "package.json", FsTree.dir "contracts" []] "/work/proj"
      (by decide) (by decide) (by decide)).1⟩

/-! ### Project structure validation (`src/checks/initializationCheck.ts`)

`fs.existsSync`, `fs.readFileSync` and `JSON.parse` are the external
collaborators: the manifest is absent, unparsable (the try block threw, with
the error's message), or parsed.  The only observable of a dependency value is
its JS truthiness (the code tests `!allDeps[REQUIRED_DEP]`), so the two
dependency maps are key/truthiness pairs - e.g. the npm-legal `"dep": ""`
declaration is a present key with a falsy value. -/

inductive ManifestState where
  | absent
  | unparsable (errMsg : String)
  | parsed (dependencies devDependencies : List (String × Bool))

structure ProjectFs where
  manifest : ManifestState
  configExists : Bool
  blueprintModuleExists : Bool
  root : String

def REQUIRED_DEP : String := "@ton-ai-core/blueprint"

def REQUIRED_CONFIG : String := "blueprint.config.ts"

def REQUIRED_NODE_MODULES_DIR : String := "node_modules/@ton-ai-core/blueprint"

/-- Truthiness of `{...dependencies, ...devDependencies}[k]`: the later spread
wins for shared keys, an absent key is falsy. -/
def lookupTruthy (dependencies devDependencies : List (String × Bool)) (k : String) : Bool :=
  match devDependencies.find? (fun e => decide (e.1 = k)) with
  | some e => e.2
  | none =>
    match dependencies.find? (fun e => decide (e.1 = k)) with
    | some e => e.2
    | none => false

def missingManifestError (root : String) : LinterError :=
  { type := ErrorType.StructureValidation, file := root,
    message := "Missing \x27package.json\x27" }

def manifestParseError (root msg : String) : LinterError :=
  { type := ErrorType.StructureValidation, file := root ++ "/package.json",
    message := "Error reading or parsing: " ++ msg }

def depNotFoundError (root : String) : LinterError :=
  { type := ErrorType.StructureValidation, file := root ++ "/package.json",
    message := "Key dependency \x27" ++ REQUIRED_DEP ++ "\x27 not found." }

def configNotFoundError (root : String) : LinterError :=
  { type := ErrorType.StructureValidation, file := root,
    message := "Configuration file \x27" ++ REQUIRED_CONFIG ++ "\x27 not found." }

def moduleNotFoundError (root : String) : LinterError :=
  { type := ErrorType.StructureValidation, file := root,
    message := "Local blueprint installation not found at \x27" ++
      REQUIRED_NODE_MODULES_DIR ++ "\x27. Did you run \x27npm install\x27?" }

/-- `validateProjectStructure`: early return on a missing manifest; otherwise
the dependency (or parse-failure), configuration-file and local-module checks
each push their own diagnostic. -/
def validateProjectStructure (fs : ProjectFs) : List LinterError :=
  match fs.manifest with
  | ManifestState.absent => [missingManifestError fs.root]
  | ManifestState.unparsable msg =>
    [manifestParseError fs.root msg]
      ++ (if !fs.configExists then [configNotFoundError fs.root] else [])
      ++ (if !fs.blueprintModuleExists then [moduleNotFoundError fs.root] else [])
  | ManifestState.parsed deps devDeps =>
    (if !(lookupTruthy deps devDeps REQUIRED_DEP) then [depNotFoundError fs.root] else [])
      ++ (if !fs.configExists then [configNotFoundError fs.root] else [])
      ++ (if !fs.blueprintModuleExists then [moduleNotFoundError fs.root] else [])

/-- C9: without a manifest the validator returns exactly the missing-manifest
diagnostic, independently of the configuration-file and module states it never
inspects. -/
theorem c9_missing_manifest_short_circuit (root : String) (cfg moduleState : Bool) :
    validateProjectStructure
        (ProjectFs.mk ManifestState.absent cfg moduleState root) =
      [missingManifestError root] := rfl

/-- Counterexample to C5 as stated: the required dependency key appears in the
dependencies map (with the npm-legal falsy value modelling `"": any version`),
the configuration file and local module are present, yet the validator still
reports the dependency as missing, because the code tests value truthiness
(`!allDeps[REQUIRED_DEP]`) rather than key presence. -/
theorem c5_counterexample_falsy_dep_value :
    ([("@ton-ai-core/blueprint", false)] : List (String × Bool)).any
        (fun e => decide (e.1 = REQUIRED_DEP)) = true ∧
    validateProjectStructure
        (ProjectFs.mk (ManifestState.parsed [("@ton-ai-core/blueprint", false)] [])
          true true "proj") =
      [depNotFoundError "proj"] :=
  ⟨by decide, by decide⟩

/-- C5 amended: for a parsed manifest the dependency check accepts exactly a
truthy value in the spread of the two maps; the three checks are independent,
each failing one contributes its own diagnostic, all can accumulate in one
pass, and the result is empty exactly when all three pass. -/
theorem c5_structural_checks_independent (deps devDeps : List (String × Bool))
    (cfg moduleState : Bool) (root : String) :
    (validateProjectStructure
        (ProjectFs.mk (ManifestState.parsed deps devDeps) cfg moduleState root) = [] ↔
      (lookupTruthy deps devDeps REQUIRED_DEP = true ∧ cfg = true ∧ moduleState = true))
    ∧ (lookupTruthy deps devDeps REQUIRED_DEP = false →
        depNotFoundError root ∈ validateProjectStructure
          (ProjectFs.mk (ManifestState.parsed deps devDeps) cfg moduleState root))
    ∧ (cfg = false →
        configNotFoundError root ∈ validateProjectStructure
          (ProjectFs.mk (ManifestState.parsed deps devDeps) cfg moduleState root))
    ∧ (moduleState = false →
        moduleNotFoundError root ∈ validateProjectStructure
          (ProjectFs.mk (ManifestState.parsed deps devDeps) cfg moduleState root))
    ∧ (validateProjectStructure
        (ProjectFs.mk (ManifestState.parsed deps devDeps) cfg moduleState root)).length =
        ((if lookupTruthy deps devDeps REQUIRED_DEP then 0 else 1) +
         (if cfg then 0 else 1) + (if moduleState then 0 else 1)) := by
  cases hdep : lookupTruthy deps devDeps REQUIRED_DEP <;> cases cfg <;> cases moduleState <;>
    simp [validateProjectStructure, hdep]

/-- Witness for the amended C5: all three checks fail at once and all three
diagnostics accumulate. -/
theorem c5_structural_checks_independent_witness :
    lookupTruthy [] [] REQUIRED_DEP = false ∧
    depNotFoundError "proj" ∈ validateProjectStructure
      (ProjectFs.mk (ManifestState.parsed [] []) false false "proj") ∧
    configNotFoundError "proj" ∈ validateProjectStructure
      (ProjectFs.mk (ManifestState.parsed [] []) false false "proj") ∧
    moduleNotFoundError "proj" ∈ validateProjectStructure
      (ProjectFs.mk (ManifestState.parsed [] []) false false "proj") ∧
    (validateProjectStructure
      (ProjectFs.mk (ManifestState.parsed [] []) false false "proj")).length =
      ((if lookupTruthy [] [] REQUIRED_DEP then 0 else 1) +
       (if (false : Bool) then 0 else 1) + (if (false : Bool) then 0 else 1)) :=
  ⟨by decide,
   (c5_structural_checks_independent [] [] false false "proj").2.1 (by decide),
   (c5_structural_checks_independent [] [] false false "proj").2.2.1 rfl,
   (c5_structural_checks_independent [] [] false false "proj").2.2.2.1 rfl,
   (c5_structural_checks_independent [] [] false false "proj").2.2.2.2⟩
